import Mathlib

/-!
Verification development for the legal-contract-analyzer repository.

The repository's core segmentation-and-classification engine
(`clause_extractor.py` and friends) is referenced by the README and the
frontend but its source is not present; following the specification, the
Pattern Catalog, Segmenter, Classifier and Record Builder are modelled
here directly from the spec's words.  The frontend helpers
(`getRiskColor`, `getRiskCategory`, the `analyzeDocument` cache) are
embedded from `src/frontend/src/App.js`.
-/

namespace LCA

/-- Modelled from the spec: document text is a flat character stream. -/
abbrev Text := List Char

/-- Modelled from the spec (section 3): a Segment is a contiguous span of
text between two detected boundaries, with offsets, the heading text, an
optional section number, and the raw content (which excludes the heading
line). -/
structure Segment where
  start_offset : Nat
  end_offset : Nat
  heading_text : Text
  section_number : Option Text
  raw_content : Text
deriving DecidableEq

/-- Modelled from the spec (section 4.2): boundary patterns anchor at line
start after trimming leading whitespace. -/
def trimStart (l : Text) : Text := l.dropWhile (fun c => c == ' ' || c == '\t')

/-- Helper: the line starts with the given keyword immediately followed by a
digit. -/
def kwNum (kw : Text) (l : Text) : Bool :=
  kw.isPrefixOf l &&
    (match l.drop kw.length with
     | c :: _ => c.isDigit
     | [] => false)

/-- Modelled from the spec (section 4.1, kind 1): explicit legal section
markers such as Section 1, Article 5, Clause 3.2. -/
def isKind1 (l : Text) : Bool :=
  kwNum "Section ".data l || kwNum "Article ".data l || kwNum "Clause ".data l

/-- Modelled from the spec (section 4.1, kind 2): numbered or decimal
outline headings at line start, written with dots (1., 2.1, 3.2.1). -/
def isKind2 (l : Text) : Bool :=
  match l with
  | c :: _ => c.isDigit && ((l.takeWhile (fun ch => ch.isDigit || ch == '.')).contains '.')
  | [] => false

/-- Modelled from the spec (section 4.1, kind 3): lettered or roman
sub-items such as (a), (i), A. at line start.  The numbered-parent guard is
applied by the caller. -/
def isKind3 (l : Text) : Bool :=
  match l with
  | '(' :: c :: ')' :: _ => c.isAlpha
  | c :: '.' :: _ => c.isUpper
  | _ => false

/-- Modelled from the spec (section 4.1, kind 4): bare legal heading
keywords in capitals at line start. -/
def isKind4 (l : Text) : Bool :=
  "WHEREAS".data.isPrefixOf l || "DEFINITIONS".data.isPrefixOf l ||
    "NOW THEREFORE".data.isPrefixOf l

/-- Modelled from the spec (section 4.1): boundary pattern kinds, in
descending match priority. -/
inductive BKind where
  | explicitMarker
  | numbered
  | lettered
  | keyword
deriving DecidableEq

/-- Modelled from the spec (sections 4.1 and 4.2): decide whether a line is
a boundary and of which kind; when several kinds match the same offset the
higher-priority kind wins.  `np` records whether the preceding open segment
already has a numbered parent, the guard required for lettered items. -/
def boundaryKind (np : Bool) (line : Text) : Option BKind :=
  let l := trimStart line
  if isKind1 l then some .explicitMarker
  else if isKind2 l then some .numbered
  else if np && isKind3 l then some .lettered
  else if isKind4 l then some .keyword
  else none

/-- Modelled from the spec (section 4.1, kind 3 guard): whether the segment
opened by a boundary of this kind counts as a numbered parent for
subsequent lettered items. -/
def npAfter : BKind → Bool
  | .explicitMarker => true
  | .numbered => true
  | .lettered => true
  | .keyword => false

/-- Helper: the leading run of digits and dots of a line. -/
def numToken (l : Text) : Text := l.takeWhile (fun c => c.isDigit || c == '.')

/-- Helper: strip trailing dots from a section-number token. -/
def stripTrailingDots (t : Text) : Text := (t.reverse.dropWhile (fun c => c == '.')).reverse

/-- Modelled from the spec (section 4.2): the section number is extracted
via the pattern's numbering capture group, if present. -/
def sectionNumberOf (k : BKind) (line : Text) : Option Text :=
  let l := trimStart line
  match k with
  | .explicitMarker => some (stripTrailingDots (numToken (l.dropWhile (fun c => !c.isDigit))))
  | .numbered => some (stripTrailingDots (numToken l))
  | .lettered =>
    match l with
    | '(' :: c :: ')' :: _ => some [c]
    | c :: '.' :: _ => some [c]
    | _ => none
  | .keyword => none

/-- Modelled from the spec (section 4.2): the heading used for the
boundary-less fallback segment. -/
def docHeading : Text := "Document".data

/-- Helper for `splitLines`: accumulates the current line in reverse. -/
def splitLinesAux : Text → Text → List Text
  | [], acc => if acc = [] then [] else [acc.reverse]
  | c :: cs, acc =>
    if c = '\n' then (c :: acc).reverse :: splitLinesAux cs []
    else splitLinesAux cs (c :: acc)

/-- Split a text into lines, each line keeping its terminating newline, so
that joining the lines reconstructs the text. -/
def splitLines (t : Text) : List Text := splitLinesAux t []

/-- Modelled from the spec (section 4.2): the single left-to-right scan of
the Segmenter.  The open segment (start offset, heading, section number,
accumulated content) is carried along; at each boundary line the open
segment is closed at the boundary's start offset and a new one is opened
whose heading is the matched boundary text. -/
def segLoop : List Text → Nat → Bool → Nat → Text → Option Text → Text → List Segment
  | [], off, _, st, h, sn, acc => [⟨st, off, h, sn, acc⟩]
  | line :: rest, off, np, st, h, sn, acc =>
    match boundaryKind np line with
    | some k =>
      ⟨st, off, h, sn, acc⟩ ::
        segLoop rest (off + line.length) (npAfter k) off line (sectionNumberOf k line) []
    | none => segLoop rest (off + line.length) np st h sn (acc ++ line)

/-- Drops the empty synthetic head segment produced when the document
begins with a boundary at offset zero. -/
def dropEmptyHead : List Segment → List Segment
  | [] => []
  | s :: rest => if s.start_offset = s.end_offset ∧ rest ≠ [] then rest else s :: rest

/-- Modelled from the spec (section 4.2): `segment` scans the text into an
ordered sequence of segments.  The initial open segment starts at document
start with the synthetic heading Document; if the document begins with a
boundary, the resulting empty synthetic segment is dropped.  Text with zero
boundary matches yields the single whole-document fallback segment. -/
def segment (t : Text) : List Segment :=
  dropEmptyHead (segLoop (splitLines t) 0 false 0 docHeading none [])

/-- Checks that a segment list starts at offset `a`, each segment's end
offset equals the next segment's start offset, and the last segment ends at
`b`. -/
def contiguous : Nat → List Segment → Nat → Bool
  | a, [], b => a == b
  | a, s :: ss, b => (s.start_offset == a) && contiguous s.end_offset ss b

/-- Concatenation, in order, of each segment's heading text followed by its
raw content. -/
def reconstruct (ss : List Segment) : Text :=
  (ss.map (fun s => s.heading_text ++ s.raw_content)).flatten

/-- Whether the first line of the text is a boundary match. -/
def startsWithBoundary (t : Text) : Bool :=
  match splitLines t with
  | [] => false
  | l :: _ => (boundaryKind false l).isSome

/-- Modelled from the spec (section 3): a CategoryPattern holds a
keyword/phrase matcher with a weight.  The spec's weights are 1.0 by
default and boosted for exact multi-word phrases; they are represented
here in half-units (2 = weight 1.0, 3 = weight 1.5) so that scores stay in
the naturals. -/
structure CategoryPattern where
  keyword : Text
  weight : Nat
deriving DecidableEq

/-- Case-folded view of a text, used for case-insensitive matching. -/
def lowerT (t : Text) : Text := t.map Char.toLower

/-- Whether `kw` occurs as a contiguous substring of `l`. -/
def containsSub (kw : Text) : Text → Bool
  | [] => kw.isEmpty
  | c :: cs => kw.isPrefixOf (c :: cs) || containsSub kw cs

/-- Modelled from the spec (section 4.3): a pattern matches anywhere within
the content, case-insensitively. -/
def matchesIn (kw : Text) (content : Text) : Bool :=
  containsSub kw (lowerT content)

/-- Modelled from the spec (sections 3, 4.1) and the README's pattern
tables: the immutable Pattern Catalog mapping each clause category to its
keyword patterns.  Multi-word phrases carry the boosted weight 3 (= 1.5);
single keywords carry the default 2 (= 1.0). -/
def catalog : List (String × List CategoryPattern) :=
  [("Payment Terms",
    [⟨"payment terms".data, 3⟩, ⟨"payment".data, 2⟩, ⟨"billing".data, 2⟩,
     ⟨"invoice".data, 2⟩, ⟨"compensation".data, 2⟩]),
   ("Termination Clause",
    [⟨"end of agreement".data, 3⟩, ⟨"termination".data, 2⟩, ⟨"terminate".data, 2⟩,
     ⟨"expiration".data, 2⟩]),
   ("Liability Clause",
    [⟨"limitation of liability".data, 3⟩, ⟨"liability".data, 2⟩, ⟨"damages".data, 2⟩,
     ⟨"indemnification".data, 2⟩]),
   ("Confidentiality Clause",
    [⟨"confidential".data, 2⟩, ⟨"non-disclosure".data, 2⟩]),
   ("Governing Law",
    [⟨"governing law".data, 3⟩, ⟨"jurisdiction".data, 2⟩])]

/-- Modelled from the spec (section 4.3): the fixed acceptance threshold,
default 1.0, in the same half-unit scale as the weights. -/
def threshold : Nat := 2

/-- Modelled from the spec (section 4.3): the score of a pattern list
against a content is the sum of the weights of every pattern that matches
anywhere within the content. -/
def score (pats : List CategoryPattern) (content : Text) : Nat :=
  (pats.map (fun p => if matchesIn p.keyword content then p.weight else 0)).sum

/-- Modelled from the spec (section 4.3): `classify` returns the requested
categories whose summed pattern weight against the segment's raw content
clears the threshold.  It reads nothing of the segment but its raw
content. -/
def classify (seg : Segment) (cats : List String) : List String :=
  cats.filter (fun c =>
    match List.lookup c catalog with
    | some pats => threshold ≤ score pats seg.raw_content
    | none => false)

/-- Modelled from the spec (section 7): the error taxonomy of the core. -/
inductive AnalysisError where
  | UnknownCategory (label : String)
deriving DecidableEq

/-- Modelled from the spec (section 3): the canonical clause record. -/
structure ClauseRecord where
  clause_name : Text
  category : List String
  content : Text
  section_number : Option Text
  page_reference : Option Nat
deriving DecidableEq

/-- Modelled from the spec (section 3): the aggregate result of one
analysis run, a flat ordered record list plus the category buckets. -/
structure AnalysisResult where
  flat_records : List ClauseRecord
  buckets : List (String × List Text)
deriving DecidableEq

/-- Modelled from the spec (section 4.1): `category_patterns` fails with
UnknownCategory if a requested label has no registered patterns. -/
def categoryPatterns (cats : List String) :
    Except AnalysisError (List (String × List CategoryPattern)) :=
  match cats.find? (fun c => (List.lookup c catalog).isNone) with
  | some c => .error (.UnknownCategory c)
  | none => .ok (cats.map (fun c => (c, (List.lookup c catalog).getD [])))

/-- Modelled from the spec (section 4.4): the page reference for a segment
is the page number of the last page marker whose offset is at most the
segment's start offset; with no markers it is absent. -/
def pageRefFor (markers : List (Nat × Nat)) (st : Nat) : Option Nat :=
  markers.foldl (fun acc m => if m.1 ≤ st then some m.2 else acc) none

/-- Modelled from the spec (sections 3 and 4.4): one clause record is
derived from one segment and its classification. -/
def buildRecord (markers : List (Nat × Nat)) (seg : Segment) (cls : List String) :
    ClauseRecord :=
  ⟨seg.heading_text, cls, seg.raw_content, seg.section_number,
   pageRefFor markers seg.start_offset⟩

/-- Modelled from the spec (sections 4.4 and 6): the Record Builder.  It
walks the segments in order, emitting one record per segment into the flat
list, and appends each segment's raw content to the bucket of every
category the segment was classified into; bucket keys are the requested
categories, supplied by the caller. -/
def build (segs : List Segment) (cls : List (List String)) (cats : List String)
    (markers : List (Nat × Nat)) : AnalysisResult :=
  let pairs := segs.zip cls
  ⟨pairs.map (fun p => buildRecord markers p.1 p.2),
   cats.map (fun c =>
     (c, (pairs.filter (fun p => p.2.contains c)).map (fun p => p.1.raw_content)))⟩

/-- Modelled from the spec (sections 2 and 7): the full analysis pipeline.
The requested categories are validated against the catalog first; an
unknown label rejects the request with UnknownCategory before any segment
is produced. -/
def analyze (t : Text) (cats : List String) (markers : List (Nat × Nat)) :
    Except AnalysisError AnalysisResult :=
  match categoryPatterns cats with
  | .error e => .error e
  | .ok _ =>
    let segs := segment t
    .ok (build segs (segs.map (fun s => classify s cats)) cats markers)

/-- Modelled from the spec (section 6): a clause record serializes to a
flat field list in which an absent section number or page reference
contributes no field at all. -/
def serializeRecord (r : ClauseRecord) : List (String × String) :=
  [("clause_name", String.mk r.clause_name), ("content", String.mk r.content)]
    ++ (match r.section_number with
        | some sn => [("section_number", String.mk sn)]
        | none => [])
    ++ (match r.page_reference with
        | some p => [("page_reference", toString p)]
        | none => [])

/-! Embeddings of the frontend helpers from `src/frontend/src/App.js`. -/

/-- Embedded from `App.js` (`getRiskColor`): maps a numeric risk level to a
display color. -/
def getRiskColor (riskLevel : ℚ) : String :=
  if riskLevel ≥ 76 then "#e53e3e"
  else if riskLevel ≥ 51 then "#dd6b20"
  else if riskLevel ≥ 26 then "#d69e2e"
  else "#38a169"

/-- Embedded from `App.js` (`getRiskCategory`): maps a numeric risk level
to a category label. -/
def getRiskCategory (riskLevel : ℚ) : String :=
  if riskLevel ≥ 76 then "Critical Risk"
  else if riskLevel ≥ 51 then "High Risk"
  else if riskLevel ≥ 26 then "Moderate Risk"
  else "Low Risk"

/-- A selected file as seen by `analyzeDocument` in `App.js`: a name, a
size in bytes, and the actual byte contents (which the cache key never
inspects). -/
structure JSFile where
  name : String
  size : Nat
  content : List Nat
deriving DecidableEq

/-- Embedded from `App.js` line 88: the cache key template literal
combining file name, file size and processing method. -/
def cacheKey (f : JSFile) (method : String) : String :=
  f.name ++ "_" ++ toString f.size ++ "_" ++ method

/-- Embedded from `App.js` (`analyzeDocument`, lines 81-160): on a cache
hit for the key the cached response is returned and no request is issued;
otherwise the backend is called and the response is cached.  The result is
the response shown, whether a request to the backend was issued, and the
updated cache. -/
def analyzeDocument {α : Type} (cache : List (String × α)) (f : JSFile)
    (method : String) (api : JSFile → String → α) : α × Bool × List (String × α) :=
  match List.lookup (cacheKey f method) cache with
  | some r => (r, false, cache)
  | none =>
    let r := api f method
    (r, true, (cacheKey f method, r) :: cache)

/-! Helper lemmas about the Segmenter. -/

theorem splitLinesAux_flatten (t : Text) :
    ∀ acc, (splitLinesAux t acc).flatten = acc.reverse ++ t := by
  induction t with
  | nil =>
    intro acc
    by_cases h : acc = []
    · simp [splitLinesAux, h]
    · simp [splitLinesAux, h]
  | cons c cs ih =>
    intro acc
    by_cases h : c = '\n'
    · simp [splitLinesAux, h, ih]
    · simp [splitLinesAux, h, ih]

theorem splitLines_flatten (t : Text) : (splitLines t).flatten = t := by
  simpa using splitLinesAux_flatten t []

theorem splitLines_sumLen (t : Text) :
    ((splitLines t).map List.length).sum = t.length := by
  rw [← List.length_flatten, splitLines_flatten]

theorem segLoop_ne_nil (lines : List Text) :
    ∀ off np st h sn acc, segLoop lines off np st h sn acc ≠ [] := by
  induction lines with
  | nil => intro off np st h sn acc; simp [segLoop]
  | cons line rest ih =>
    intro off np st h sn acc
    rw [segLoop]
    cases hk : boundaryKind np line with
    | some k => simp
    | none => simpa using ih (off + line.length) np st h sn (acc ++ line)

theorem segLoop_reconstruct (lines : List Text) :
    ∀ off np st h sn acc,
      reconstruct (segLoop lines off np st h sn acc) = h ++ acc ++ lines.flatten := by
  induction lines with
  | nil => intro off np st h sn acc; simp [segLoop, reconstruct]
  | cons line rest ih =>
    intro off np st h sn acc
    rw [segLoop]
    cases hk : boundaryKind np line with
    | some k =>
      simp only [reconstruct, List.map_cons, List.flatten_cons]
      rw [show ∀ ss, (List.map (fun s => s.heading_text ++ s.raw_content) ss).flatten
            = reconstruct ss from fun ss => rfl]
      rw [ih (off + line.length) (npAfter k) off line (sectionNumberOf k line) []]
      simp
    | none =>
      rw [ih (off + line.length) np st h sn (acc ++ line)]
      simp

theorem segLoop_contiguous (lines : List Text) :
    ∀ off np st h sn acc,
      contiguous st (segLoop lines off np st h sn acc)
        (off + (lines.map List.length).sum) = true := by
  induction lines with
  | nil => intro off np st h sn acc; simp [segLoop, contiguous]
  | cons line rest ih =>
    intro off np st h sn acc
    rw [segLoop]
    cases hk : boundaryKind np line with
    | some k =>
      simp only [contiguous, List.map_cons, List.sum_cons, beq_self_eq_true,
        Bool.true_and]
      have := ih (off + line.length) (npAfter k) off line (sectionNumberOf k line) []
      rw [show off + line.length + (rest.map List.length).sum
            = off + (line.length + (rest.map List.length).sum) from by omega] at this
      exact this
    | none =>
      have := ih (off + line.length) np st h sn (acc ++ line)
      rw [show off + line.length + (rest.map List.length).sum
            = off + (line.length + (rest.map List.length).sum) from by omega] at this
      simpa using this

theorem segLoop_start_le_end (lines : List Text) :
    ∀ off np st h sn acc, st ≤ off →
      ∀ s ∈ segLoop lines off np st h sn acc,
        s.start_offset ≤ s.end_offset := by
  induction lines with
  | nil =>
    intro off np st h sn acc hle s hs
    simp [segLoop] at hs
    subst hs
    exact hle
  | cons line rest ih =>
    intro off np st h sn acc hle s hs
    rw [segLoop] at hs
    cases hk : boundaryKind np line with
    | some k =>
      rw [hk] at hs
      simp only [List.mem_cons] at hs
      rcases hs with hs | hs
      · subst hs; exact hle
      · exact ih (off + line.length) (npAfter k) off line (sectionNumberOf k line) []
          (Nat.le_add_right _ _) s hs
    | none =>
      rw [hk] at hs
      exact ih (off + line.length) np st h sn (acc ++ line)
        (Nat.le_trans hle (Nat.le_add_right _ _)) s hs

theorem dropEmptyHead_contiguous (ss : List Segment) (b : Nat)
    (hc : contiguous 0 ss b = true) : contiguous 0 (dropEmptyHead ss) b = true := by
  cases ss with
  | nil => exact hc
  | cons s rest =>
    rw [dropEmptyHead]
    by_cases hcond : s.start_offset = s.end_offset ∧ rest ≠ []
    · rw [if_pos hcond]
      simp only [contiguous, Bool.and_eq_true, beq_iff_eq] at hc
      have h2 := hc.2
      rw [← hcond.1, hc.1] at h2
      exact h2
    · rw [if_neg hcond]
      exact hc

theorem dropEmptyHead_subset (ss : List Segment) :
    ∀ s ∈ dropEmptyHead ss, s ∈ ss := by
  intro s hs
  cases ss with
  | nil => exact hs
  | cons s0 rest =>
    rw [dropEmptyHead] at hs
    by_cases hcond : s0.start_offset = s0.end_offset ∧ rest ≠ []
    · rw [if_pos hcond] at hs
      exact List.mem_cons_of_mem s0 hs
    · rw [if_neg hcond] at hs
      exact hs

theorem segment_contiguous (t : Text) : contiguous 0 (segment t) t.length = true := by
  have hc := segLoop_contiguous (splitLines t) 0 false 0 docHeading none []
  rw [Nat.zero_add, splitLines_sumLen] at hc
  exact dropEmptyHead_contiguous _ _ hc

theorem segment_start_le_end (t : Text) :
    ∀ s ∈ segment t, s.start_offset ≤ s.end_offset := by
  intro s hs
  exact segLoop_start_le_end (splitLines t) 0 false 0 docHeading none []
    (Nat.le_refl 0) s (dropEmptyHead_subset _ s hs)

theorem segLoop_noBoundary (lines : List Text) :
    ∀ off np st h sn acc, (∀ l ∈ lines, boundaryKind np l = none) →
      segLoop lines off np st h sn acc
        = [⟨st, off + (lines.map List.length).sum, h, sn, acc ++ lines.flatten⟩] := by
  induction lines with
  | nil => intro off np st h sn acc hnb; simp [segLoop]
  | cons line rest ih =>
    intro off np st h sn acc hnb
    rw [segLoop]
    rw [hnb line (List.mem_cons_self _ _)]
    rw [ih (off + line.length) np st h sn (acc ++ line)
      (fun l hl => hnb l (List.mem_cons_of_mem _ hl))]
    simp [List.flatten_cons, Nat.add_assoc, List.append_assoc]

theorem segment_coverage (t : Text) (hb : startsWithBoundary t = true) :
    reconstruct (segment t) = t := by
  rw [startsWithBoundary] at hb
  cases hsl : splitLines t with
  | nil => rw [hsl] at hb; simp at hb
  | cons l ls =>
    rw [hsl] at hb
    replace hb : (boundaryKind false l).isSome = true := hb
    cases hk : boundaryKind false l with
    | none => rw [hk] at hb; simp at hb
    | some k =>
      rw [segment, hsl, segLoop, hk, dropEmptyHead, Nat.zero_add]
      have hne := segLoop_ne_nil ls l.length (npAfter k) 0 l (sectionNumberOf k l) []
      rw [if_pos ⟨rfl, hne⟩]
      rw [segLoop_reconstruct]
      have : (l :: ls).flatten = t := by rw [← hsl, splitLines_flatten]
      simp only [List.flatten_cons] at this
      simpa using this

theorem contiguous_chain (ss : List Segment) :
    ∀ a b, contiguous a ss b = true →
      (∀ s ∈ ss, s.start_offset ≤ s.end_offset) →
      List.Chain' (fun x y => x ≤ y) (ss.map Segment.start_offset) := by
  induction ss with
  | nil => intro a b _ _; simp
  | cons s rest ih =>
    intro a b hc hle
    simp only [contiguous, Bool.and_eq_true, beq_iff_eq] at hc
    cases rest with
    | nil => simp
    | cons s2 rest2 =>
      simp only [List.map_cons, List.chain'_cons]
      constructor
      · have h2 := hc.2
        simp only [contiguous, Bool.and_eq_true, beq_iff_eq] at h2
        rw [h2.1]
        exact hle s (List.mem_cons_self _ _)
      · simpa using ih s.end_offset b hc.2
          (fun x hx => hle x (List.mem_cons_of_mem _ hx))

/-! Helper lemmas about the Classifier. -/

theorem isPrefixOf_append (kw l t : Text) (h : kw.isPrefixOf l = true) :
    kw.isPrefixOf (l ++ t) = true := by
  rw [List.isPrefixOf_iff_prefix] at h ⊢
  exact h.trans (List.prefix_append l t)

theorem containsSub_append (kw s t : Text) (h : containsSub kw s = true) :
    containsSub kw (s ++ t) = true := by
  induction s with
  | nil =>
    rw [containsSub] at h
    have : kw = [] := by simpa using h
    subst this
    cases t with
    | nil => simp [containsSub]
    | cons c cs => simp [containsSub, List.isPrefixOf]
  | cons c cs ih =>
    rw [containsSub] at h
    rw [List.cons_append, containsSub]
    rcases Bool.or_eq_true_iff.mp h with h1 | h2
    · rw [Bool.or_eq_true_iff]
      left
      simpa using isPrefixOf_append kw (c :: cs) t h1
    · rw [Bool.or_eq_true_iff]
      right
      exact ih h2

theorem matchesIn_append (kw s t : Text) (h : matchesIn kw s = true) :
    matchesIn kw (s ++ t) = true := by
  rw [matchesIn, lowerT, List.map_append] at *
  exact containsSub_append _ _ _ h

theorem score_append (pats : List CategoryPattern) (s t : Text) :
    score pats s ≤ score pats (s ++ t) := by
  refine List.sum_le_sum ?_
  intro p _
  by_cases hm : matchesIn p.keyword s = true
  · rw [if_pos hm, if_pos (matchesIn_append p.keyword s t hm)]
  · rw [if_neg hm]
    exact Nat.zero_le _

theorem lookup_mem {β : Type} {l : List (String × β)} {a : String} {b : β}
    (h : List.lookup a l = some b) : (a, b) ∈ l := by
  induction l with
  | nil => simp [List.lookup] at h
  | cons hd tl ih =>
    rw [List.lookup] at h
    split at h
    · next heq =>
      cases h
      have ha : a = hd.1 := by simpa using heq
      cases hd
      subst ha
      simp_all
    · exact List.mem_cons_of_mem _ (ih h)

theorem classify_mem_iff (seg : Segment) (cats : List String) (c : String) :
    c ∈ classify seg cats ↔
      c ∈ cats ∧ ∃ pats, List.lookup c catalog = some pats ∧
        threshold ≤ score pats seg.raw_content := by
  rw [classify, List.mem_filter]
  constructor
  · rintro ⟨hmem, hp⟩
    refine ⟨hmem, ?_⟩
    cases hl : List.lookup c catalog with
    | none => rw [hl] at hp; simp at hp
    | some pats =>
      rw [hl] at hp
      exact ⟨pats, rfl, by simpa using hp⟩
  · rintro ⟨hmem, pats, hl, hs⟩
    refine ⟨hmem, ?_⟩
    rw [hl]
    simpa using hs

theorem classify_raw_only (s s' : Segment) (cats : List String)
    (h : s.raw_content = s'.raw_content) : classify s cats = classify s' cats := by
  rw [classify, classify, h]

theorem classify_append_mono (s s' : Segment) (t : Text) (cats : List String)
    (c : String) (hraw : s'.raw_content = s.raw_content ++ t)
    (hc : c ∈ classify s cats) : c ∈ classify s' cats := by
  rw [classify_mem_iff] at hc ⊢
  rcases hc with ⟨hmem, pats, hl, hs⟩
  exact ⟨hmem, pats, hl,
    Nat.le_trans hs (by rw [hraw]; exact score_append pats s.raw_content t)⟩

/-! Helper lemmas about the Record Builder and the analysis pipeline. -/

theorem foldl_lastMarker (st : Nat) (ms : List (Nat × Nat)) :
    ∀ acc : Option Nat,
      ms.foldl (fun a m => if m.1 ≤ st then some m.2 else a) acc
        = ((ms.filter (fun m => decide (m.1 ≤ st))).getLast?).elim acc
            (fun m => some m.2) := by
  induction ms using List.reverseRecOn with
  | nil => intro acc; simp
  | append_singleton ms m ih =>
    intro acc
    rw [List.foldl_append, List.filter_append, ih]
    by_cases hm : m.1 ≤ st
    · simp [hm, List.getLast?_concat]
    · simp [hm]

theorem pageRefFor_lastMarker (markers : List (Nat × Nat)) (st : Nat) :
    pageRefFor markers st
      = ((markers.filter (fun m => decide (m.1 ≤ st))).getLast?).map (fun m => m.2) := by
  rw [pageRefFor, foldl_lastMarker]
  cases (markers.filter (fun m => decide (m.1 ≤ st))).getLast? with
  | none => rfl
  | some m => rfl

theorem zip_self_map {α β : Type} (l : List α) (g : α → β) :
    l.zip (l.map g) = l.map (fun a => (a, g a)) := by
  induction l with
  | nil => rfl
  | cons hd tl ih => simp [ih]

theorem analyze_ok (t : Text) (cats : List String) (markers : List (Nat × Nat))
    (hok : cats.find? (fun c => (List.lookup c catalog).isNone) = none) :
    analyze t cats markers
      = .ok (build (segment t) ((segment t).map (fun s => classify s cats)) cats markers) := by
  rw [analyze, categoryPatterns, hok]

theorem build_flat (segs : List Segment) (g : Segment → List String)
    (cats : List String) (markers : List (Nat × Nat)) :
    (build segs (segs.map g) cats markers).flat_records
      = segs.map (fun s => buildRecord markers s (g s)) := by
  rw [build]
  simp only [zip_self_map, List.map_map]
  rfl

theorem build_buckets (segs : List Segment) (g : Segment → List String)
    (cats : List String) (markers : List (Nat × Nat)) :
    (build segs (segs.map g) cats markers).buckets
      = cats.map (fun c =>
          (c, (segs.filter (fun s => (g s).contains c)).map Segment.raw_content)) := by
  rw [build]
  simp only [zip_self_map, List.filter_map, List.map_map]
  rfl

/-! Claim theorems. -/

/-- Claim C1, counterexample: on a text with no boundary match the single
fallback segment carries the synthetic heading Document, which is not part
of the text, so concatenating each segment's heading text followed by its
raw content does not reconstruct the original text. -/
theorem claim1_counterexample :
    reconstruct (segment "hello".data) ≠ "hello".data := by decide

/-- Claim C1 (amended): for every input text the segments returned by
`segment` are ordered by start offset, contiguous and non-overlapping (the
end offset of segment i equals the start offset of segment i+1 and the
last segment ends at end of text); and whenever the document starts with a
boundary match (so that no synthetic Document heading is introduced),
concatenating in order each segment's heading text followed by its raw
content reconstructs the original text exactly. -/
theorem claim1_segment_coverage (t : Text) :
    contiguous 0 (segment t) t.length = true
    ∧ (∀ s ∈ segment t, s.start_offset ≤ s.end_offset)
    ∧ (startsWithBoundary t = true → reconstruct (segment t) = t) :=
  ⟨segment_contiguous t, segment_start_le_end t, segment_coverage t⟩

/-- Witness for C1's amended theorem at a concrete document that starts
with a numbered heading. -/
theorem claim1_witness :
    startsWithBoundary "1. Hi\nBody".data = true
    ∧ reconstruct (segment "1. Hi\nBody".data) = "1. Hi\nBody".data :=
  ⟨by decide, (claim1_segment_coverage "1. Hi\nBody".data).2.2 (by decide)⟩

/-- Claim C2: a requested category set containing a label with no
registered patterns in the catalog makes the analysis fail with
UnknownCategory; the error carries no partial AnalysisResult. -/
theorem claim2_unknown_category (t : Text) (cats : List String)
    (markers : List (Nat × Nat)) (c : String) (hc : c ∈ cats)
    (hnone : List.lookup c catalog = none) :
    ∃ c', c' ∈ cats ∧ List.lookup c' catalog = none ∧
      analyze t cats markers = .error (.UnknownCategory c') := by
  cases hf : cats.find? (fun x => (List.lookup x catalog).isNone) with
  | none =>
    exfalso
    have hx := List.find?_eq_none.mp hf c hc
    rw [hnone] at hx
    simp at hx
  | some c' =>
    refine ⟨c', List.mem_of_find?_eq_some hf, ?_, ?_⟩
    · have hx := List.find?_some hf
      simpa [Option.isNone_iff_eq_none] using hx
    · rw [analyze, categoryPatterns, hf]

/-- Witness for C2 at a concrete unknown label. -/
theorem claim2_witness :
    ∃ c', c' ∈ ["Bogus Category"] ∧ List.lookup c' catalog = none ∧
      analyze "x".data ["Bogus Category"] []
        = .error (.UnknownCategory c') :=
  claim2_unknown_category "x".data ["Bogus Category"] [] "Bogus Category"
    (by decide) (by decide)

/-- Claim C3: when no boundary pattern matches anywhere in the text,
`segment` returns exactly one segment spanning the whole document, with
heading Document and no section number.  `segment` is a total function, so
it raises no error on any input. -/
theorem claim3_fallback (t : Text)
    (hnb : ∀ l ∈ splitLines t, boundaryKind false l = none) :
    segment t = [⟨0, t.length, docHeading, none, t⟩] := by
  rw [segment, segLoop_noBoundary (splitLines t) 0 false 0 docHeading none [] hnb]
  rw [dropEmptyHead, if_neg (fun hcond => hcond.2 rfl)]
  simp [splitLines_sumLen, splitLines_flatten]

/-- Witness for C3 at a concrete heading-less text. -/
theorem claim3_witness :
    segment "hello world".data = [⟨0, 11, docHeading, none, "hello world".data⟩] :=
  claim3_fallback "hello world".data (by decide)

/-- Claim C4: `classify` returns exactly the requested categories whose
summed matching-pattern weight over the segment's raw content (matched
case-insensitively, anywhere in the content) reaches the threshold, and
the result may contain several categories simultaneously.  Weights are in
half-units, so `threshold` = 2 represents the spec's default 1.0. -/
theorem claim4_classify (seg : Segment) (cats : List String) :
    (∀ c, c ∈ classify seg cats ↔
      c ∈ cats ∧ ∃ pats, List.lookup c catalog = some pats ∧
        threshold ≤ score pats seg.raw_content)
    ∧ classify ⟨0, 0, [], none, "mentions payment and also termination fees".data⟩
        ["Payment Terms", "Termination Clause"]
        = ["Payment Terms", "Termination Clause"] :=
  ⟨fun c => classify_mem_iff seg cats c, by decide⟩

/-- Claim C5: the pipeline is deterministic; `segment` and `analyze` are
pure functions of their arguments, and `classify` depends only on the
segment's raw content and the requested category set. -/
theorem claim5_determinism (t : Text) (cats : List String)
    (markers : List (Nat × Nat)) (s s' : Segment)
    (h : s.raw_content = s'.raw_content) :
    segment t = segment t
    ∧ analyze t cats markers = analyze t cats markers
    ∧ classify s cats = classify s' cats :=
  ⟨rfl, rfl, classify_raw_only s s' cats h⟩

/-- Witness for C5: two segments differing in everything but raw content
classify identically. -/
theorem claim5_witness :
    classify ⟨0, 1, "A".data, none, "payment".data⟩ ["Payment Terms"]
      = classify ⟨5, 9, "B".data, some "1".data, "payment".data⟩ ["Payment Terms"] :=
  (claim5_determinism [] ["Payment Terms"] []
    ⟨0, 1, "A".data, none, "payment".data⟩
    ⟨5, 9, "B".data, some "1".data, "payment".data⟩ rfl).2.2

/-- Claim C6: scores are monotone non-decreasing in the content, so adding
text to a segment's raw content never removes a category it was already
classified into. -/
theorem claim6_monotonic (s s' : Segment) (t : Text) (cats : List String)
    (c : String) (hraw : s'.raw_content = s.raw_content ++ t)
    (hc : c ∈ classify s cats) : c ∈ classify s' cats :=
  classify_append_mono s s' t cats c hraw hc

/-- Witness for C6 at concrete contents. -/
theorem claim6_witness :
    "Payment Terms" ∈ classify ⟨0, 0, [], none, "payment then termination".data⟩
      ["Payment Terms", "Termination Clause"] :=
  claim6_monotonic ⟨0, 0, [], none, "payment".data⟩
    ⟨0, 0, [], none, "payment then termination".data⟩
    " then termination".data ["Payment Terms", "Termination Clause"]
    "Payment Terms" (by decide) (by decide)

/-- Claim C7: the Record Builder sets a record's page reference to the
page number of the last page marker whose offset is at most the segment's
start offset, and when no page markers are supplied the page reference is
absent and its field is omitted from the serialized record. -/
theorem claim7_page_reference :
    (∀ markers seg cls, (buildRecord markers seg cls).page_reference
        = pageRefFor markers seg.start_offset)
    ∧ (∀ markers st, pageRefFor markers st
        = ((markers.filter (fun m => decide (m.1 ≤ st))).getLast?).map
            (fun m => m.2))
    ∧ (∀ st, pageRefFor [] st = none)
    ∧ (∀ seg cls, ((serializeRecord (buildRecord [] seg cls)).map
        Prod.fst).contains "page_reference" = false) := by
  refine ⟨fun _ _ _ => rfl, pageRefFor_lastMarker, fun _ => rfl, ?_⟩
  intro seg cls
  cases hsn : seg.section_number with
  | none => simp [serializeRecord, buildRecord, pageRefFor, hsn]
  | some sn => simp [serializeRecord, buildRecord, pageRefFor, hsn]

/-- Claim C8: in a successful analysis the flat record list has one record
per segment in original document order (sorted by ascending start offset),
and each bucket lists exactly the contents of the segments classified into
that category, in segment order; a segment with an empty classification
set therefore contributes to no bucket while its record stays in the flat
list. -/
theorem claim8_result_invariants (t : Text) (cats : List String)
    (markers : List (Nat × Nat)) (res : AnalysisResult)
    (hok : analyze t cats markers = .ok res) :
    res.flat_records
      = (segment t).map (fun s => buildRecord markers s (classify s cats))
    ∧ res.buckets = cats.map (fun c =>
        (c, ((segment t).filter
          (fun s => (classify s cats).contains c)).map Segment.raw_content))
    ∧ (∀ s ∈ segment t,
        buildRecord markers s (classify s cats) ∈ res.flat_records)
    ∧ List.Chain' (fun x y => x ≤ y) ((segment t).map Segment.start_offset) := by
  have hbuild : res = build (segment t)
      ((segment t).map (fun s => classify s cats)) cats markers := by
    rw [analyze] at hok
    cases hcp : categoryPatterns cats with
    | error e => rw [hcp] at hok; simp at hok
    | ok xs => rw [hcp] at hok; simpa using hok.symm
  refine ⟨?_, ?_, ?_, ?_⟩
  · rw [hbuild, build_flat]
  · rw [hbuild, build_buckets]
  · intro s hs
    rw [hbuild, build_flat]
    exact List.mem_map_of_mem _ hs
  · exact contiguous_chain (segment t) 0 t.length (segment_contiguous t)
      (segment_start_le_end t)

/-- Witness for C8 at a concrete one-segment document. -/
theorem claim8_witness :
    (AnalysisResult.mk [⟨docHeading, [], "x".data, none, none⟩]
        [("Payment Terms", [])]).flat_records
      = (segment "x".data).map
          (fun s => buildRecord [] s (classify s ["Payment Terms"]))
    ∧ List.Chain' (fun x y => x ≤ y)
        ((segment "x".data).map Segment.start_offset) :=
  ⟨(claim8_result_invariants "x".data ["Payment Terms"] []
      ⟨[⟨docHeading, [], "x".data, none, none⟩], [("Payment Terms", [])]⟩ rfl).1,
   (claim8_result_invariants "x".data ["Payment Terms"] []
      ⟨[⟨docHeading, [], "x".data, none, none⟩], [("Payment Terms", [])]⟩ rfl).2.2.2⟩

/-- Claim C9: `getRiskColor` and `getRiskCategory` partition the risk
level into the same four bands with identical thresholds, so the displayed
color and label always agree. -/
theorem claim9_risk_bands (n : ℚ) :
    (76 ≤ n → getRiskColor n = "#e53e3e" ∧ getRiskCategory n = "Critical Risk")
    ∧ (51 ≤ n ∧ n < 76 →
        getRiskColor n = "#dd6b20" ∧ getRiskCategory n = "High Risk")
    ∧ (26 ≤ n ∧ n < 51 →
        getRiskColor n = "#d69e2e" ∧ getRiskCategory n = "Moderate Risk")
    ∧ (n < 26 → getRiskColor n = "#38a169" ∧ getRiskCategory n = "Low Risk") := by
  unfold getRiskColor getRiskCategory
  refine ⟨fun h => ?_, fun h => ?_, fun h => ?_, fun h => ?_⟩ <;>
    split_ifs <;>
    first
      | exact ⟨rfl, rfl⟩
      | (exfalso; rw [ge_iff_le] at *; rcases h with ⟨ha, hb⟩ <;> linarith)
      | (exfalso; rw [ge_iff_le] at *; linarith)

/-- Witness for C9 at one concrete value in each band. -/
theorem claim9_witness :
    (getRiskColor 80 = "#e53e3e" ∧ getRiskCategory 80 = "Critical Risk")
    ∧ (getRiskColor 60 = "#dd6b20" ∧ getRiskCategory 60 = "High Risk")
    ∧ (getRiskColor 30 = "#d69e2e" ∧ getRiskCategory 30 = "Moderate Risk")
    ∧ (getRiskColor 10 = "#38a169" ∧ getRiskCategory 10 = "Low Risk") :=
  ⟨(claim9_risk_bands 80).1 (by norm_num),
   (claim9_risk_bands 60).2.1 (by norm_num),
   (claim9_risk_bands 30).2.2.1 (by norm_num),
   (claim9_risk_bands 10).2.2.2 (by norm_num)⟩

/-- Claim C10: `analyzeDocument` caches results keyed only by file name,
file size and processing method; on a key match the cached result is
returned and no request to the backend is issued, even when the new file's
contents differ from the file that produced the cached entry. -/
theorem claim10_cache (α : Type) (cache : List (String × α)) (f f' : JSFile)
    (method : String) (api : JSFile → String → α) (r : α)
    (hname : f.name = f'.name) (hsize : f.size = f'.size)
    (hcached : List.lookup (cacheKey f' method) cache = some r) :
    analyzeDocument cache f method api = (r, false, cache) := by
  have hkey : cacheKey f method = cacheKey f' method := by
    rw [cacheKey, cacheKey, hname, hsize]
  rw [analyzeDocument, hkey, hcached]

/-- Witness for C10: the cached entry was produced by a file with byte
contents 9,9,9,9, yet a different file with the same name and size hits
the cache and no backend request is made. -/
theorem claim10_witness :
    analyzeDocument [("contract.pdf_4_local", 7)]
      ⟨"contract.pdf", 4, [1, 2, 3, 4]⟩ "local" (fun _ _ => 0)
      = (7, false, [("contract.pdf_4_local", 7)]) :=
  claim10_cache Nat [("contract.pdf_4_local", 7)]
    ⟨"contract.pdf", 4, [1, 2, 3, 4]⟩ ⟨"contract.pdf", 4, [9, 9, 9, 9]⟩
    "local" (fun _ _ => 0) 7 rfl rfl (by decide)

end LCA
